import Mathlib

/-!
# Verification of the sliding-window rate limiter

Shallow embedding of `src/backend/src/middleware.py` (class `RateLimiter`).

Timestamps (Python floats from `time.time()`) are modelled as rationals `ℚ`;
the configuration integers as `ℤ`.  The Python dict `self.clients` is an
association list with Python-dict update semantics (assigning an existing key
replaces its value in place, a new key is appended at the end).  Python's
`int(x)` truncates a float toward zero; `min([])` raises `ValueError`, so
`is_rate_limited` returns an `Option Decision` paired with the state reached
at the moment of a raise (in-place mutations persist past an exception).
-/

set_option autoImplicit false

namespace TodoApp

/-- Lookup in an association list, Python `d[k]` / `k in d`. -/
def lookupKey {α : Type} (key : String) : List (String × α) → Option α
  | [] => none
  | (k, v) :: rest => if k = key then some v else lookupKey key rest

/-- Python-dict assignment `d[k] = v`: replace in place if present, else append. -/
def setKey {α : Type} (key : String) (v : α) : List (String × α) → List (String × α)
  | [] => [(key, v)]
  | (k, w) :: rest => if k = key then (k, v) :: rest else (k, w) :: setKey key v rest

/-- Python `int(q)`: truncation toward zero, i.e. T-division of the numerator
by the denominator. -/
def pyInt (q : ℚ) : ℤ := q.num.tdiv (q.den : ℤ)

/-- Python `min` on a list of timestamps; `min([])` raises, callers guard with
a `match`, so the `[]` value here is never used by `is_rate_limited`. -/
def listMin : List ℚ → ℚ
  | [] => 0
  | x :: xs => xs.foldl min x

/-- The tuple returned by `RateLimiter.is_rate_limited`:
`(is_limited, remaining_requests, reset_time_seconds)`. -/
structure Decision where
  is_limited : Bool
  remaining : ℤ
  reset_seconds : ℤ
  deriving DecidableEq, Repr

/-- The spec's `allowed` field of a `Decision` is the negation of the code's
`is_limited` flag. -/
def Decision.allowed (d : Decision) : Bool := !d.is_limited

/-- `RateLimiter.__init__` state: `max_requests`, `window_seconds`, `clients`
(`middleware.py` lines 11-14). -/
structure RateLimiter where
  max_requests : ℤ
  window_seconds : ℤ
  clients : List (String × List ℚ)
  deriving DecidableEq, Repr

namespace RateLimiter

/-- `RateLimiter(max_requests, window_seconds)`: the source constructor stores
the arguments verbatim with an empty client map and performs no validation
(`middleware.py` lines 11-14). -/
def new (max_requests window_seconds : ℤ) : RateLimiter :=
  ⟨max_requests, window_seconds, []⟩

/-- `_cleanup_old_requests` (`middleware.py` lines 24-30): if the key is
present, keep exactly the timestamps `ts` with `now - ts < window_seconds`. -/
def cleanup_old_requests (rl : RateLimiter) (key : String) (now : ℚ) : RateLimiter :=
  match lookupKey key rl.clients with
  | none => rl
  | some log =>
    { rl with clients :=
        setKey key (log.filter (fun ts => now - ts < (rl.window_seconds : ℚ))) rl.clients }

/-- Lines 41-45 of `is_rate_limited`: cleanup, then get-or-initialize the
client's entry with `[]`. -/
def touch (rl : RateLimiter) (key : String) (now : ℚ) : RateLimiter :=
  let rl := rl.cleanup_old_requests key now
  match lookupKey key rl.clients with
  | some _ => rl
  | none => { rl with clients := setKey key [] rl.clients }

/-- The reject-branch reset computation (`middleware.py` lines 51-53):
`max(0, int(oldest + window_seconds - now))`. -/
def rejectReset (oldest : ℚ) (window_seconds : ℤ) (now : ℚ) : ℤ :=
  max 0 (pyInt (oldest + (window_seconds : ℚ) - now))

/-- `is_rate_limited` (`middleware.py` lines 32-58) at an already-extracted
client key and injected time.  Returns `(none, state)` when Python would raise
(`min([])` on an empty log with `request_count >= max_requests`). -/
def is_rate_limited (rl : RateLimiter) (key : String) (now : ℚ) :
    Option Decision × RateLimiter :=
  let rl := rl.touch key now
  let log := (lookupKey key rl.clients).getD []
  if rl.max_requests ≤ (log.length : ℤ) then
    match log with
    | [] => (none, rl)
    | x :: xs =>
      let oldest := xs.foldl min x
      (some ⟨true, 0, rejectReset oldest rl.window_seconds now⟩, rl)
  else
    let newLog := log ++ [now]
    let rl := { rl with clients := setKey key newLog rl.clients }
    (some ⟨false, rl.max_requests - (newLog.length : ℤ), rl.window_seconds⟩, rl)

end RateLimiter

/-- The per-key length invariant of §3: no stored log exceeds `max_requests`. -/
def LogsBounded (rl : RateLimiter) : Prop :=
  ∀ k log, lookupKey k rl.clients = some log → (log.length : ℤ) ≤ rl.max_requests

/-- A sequence of `is_rate_limited` calls for one client key at the given
times, threading the limiter state. -/
def runCallsOn (rl : RateLimiter) (key : String) : List ℚ → RateLimiter
  | [] => rl
  | t :: ts => runCallsOn (rl.is_rate_limited key t).2 key ts

/-! ## Helper lemmas -/

theorem pyInt_eq (q : ℚ) : pyInt q = if 0 ≤ q then ⌊q⌋ else ⌈q⌉ := by
  unfold pyInt
  split
  · next h =>
    rw [Rat.floor_def]
    exact Int.tdiv_eq_ediv (Rat.num_nonneg.mpr h) (Int.ofNat_nonneg _)
  · next h =>
    push_neg at h
    have hnum : q.num ≤ 0 := Rat.num_nonpos.mpr h.le
    have h1 : q.num.tdiv (q.den : ℤ) = -((-q.num).tdiv (q.den : ℤ)) := by
      rw [← Int.neg_tdiv, neg_neg]
    have h2 : (-q.num).tdiv (q.den : ℤ) = (-q.num) / (q.den : ℤ) :=
      Int.tdiv_eq_ediv (by omega) (Int.ofNat_nonneg _)
    have h3 : ⌊-q⌋ = (-q.num) / (q.den : ℤ) := by
      rw [Rat.floor_def, Rat.num_neg_eq_neg_num, Rat.den_neg_eq_den]
    have h4 : ⌈q⌉ = -⌊-q⌋ := by
      rw [Int.floor_neg]; ring
    rw [h1, h2, ← h3, ← h4]

theorem max_zero_pyInt (q : ℚ) : max 0 (pyInt q) = max 0 ⌊q⌋ := by
  rw [pyInt_eq]
  split
  · rfl
  · next h =>
    push_neg at h
    have h1 : ⌈q⌉ ≤ 0 := Int.ceil_le.mpr (by exact_mod_cast h.le)
    have h2 : ⌊q⌋ ≤ 0 := le_trans (Int.floor_le_ceil q) h1
    omega

theorem pyInt_mono {q r : ℚ} (h : q ≤ r) : pyInt q ≤ pyInt r := by
  rw [pyInt_eq, pyInt_eq]
  split
  · next hq =>
    split
    · next hr => exact Int.floor_le_floor h
    · next hr => exact absurd (le_trans hq h) hr
  · next hq =>
    push_neg at hq
    split
    · next hr =>
      have h1 : ⌈q⌉ ≤ 0 := Int.ceil_le.mpr (by exact_mod_cast hq.le)
      have h2 : (0 : ℤ) ≤ ⌊r⌋ := Int.le_floor.mpr (by exact_mod_cast hr)
      omega
    · next hr => exact Int.ceil_le_ceil h

theorem foldl_min_le (xs : List ℚ) (x : ℚ) : ∀ t ∈ x :: xs, xs.foldl min x ≤ t := by
  induction xs generalizing x with
  | nil =>
    intro t ht
    simp only [List.mem_singleton] at ht
    simp [ht]
  | cons y ys ih =>
    intro t ht
    simp only [List.foldl_cons]
    rcases List.mem_cons.mp ht with rfl | ht'
    · exact le_trans (ih (min t y) (min t y) (List.mem_cons_self _ _)) (min_le_left _ _)
    · rcases List.mem_cons.mp ht' with rfl | ht''
      · exact le_trans (ih (min x t) (min x t) (List.mem_cons_self _ _)) (min_le_right _ _)
      · exact ih (min x y) t (List.mem_cons_of_mem _ ht'')

theorem foldl_min_mem (xs : List ℚ) (x : ℚ) : xs.foldl min x ∈ x :: xs := by
  induction xs generalizing x with
  | nil => simp
  | cons y ys ih =>
    simp only [List.foldl_cons]
    have h := ih (min x y)
    rcases List.mem_cons.mp h with h' | h'
    · rcases min_choice x y with hm | hm
      · rw [h', hm]; exact List.mem_cons_self _ _
      · rw [h', hm]; exact List.mem_cons_of_mem _ (List.mem_cons_self _ _)
    · exact List.mem_cons_of_mem _ (List.mem_cons_of_mem _ h')

theorem lookupKey_setKey_self {α : Type} (k : String) (v : α) (m : List (String × α)) :
    lookupKey k (setKey k v m) = some v := by
  induction m with
  | nil => simp [setKey, lookupKey]
  | cons e rest ih =>
    obtain ⟨k', w⟩ := e
    by_cases h : k' = k
    · simp [setKey, lookupKey, h]
    · simp [setKey, lookupKey, h, ih]

theorem lookupKey_setKey_other {α : Type} {k k' : String} (h : k ≠ k') (v : α)
    (m : List (String × α)) : lookupKey k (setKey k' v m) = lookupKey k m := by
  induction m with
  | nil => simp [setKey, lookupKey, Ne.symm h]
  | cons e rest ih =>
    obtain ⟨k'', w⟩ := e
    by_cases hk : k'' = k'
    · subst hk
      simp [setKey, lookupKey, Ne.symm h]
    · simp [setKey, lookupKey, hk, ih]

theorem touch_def (rl : RateLimiter) (key : String) (now : ℚ) :
    rl.touch key now =
      { rl with clients :=
          match lookupKey key rl.clients with
          | some log =>
              setKey key (log.filter (fun ts => now - ts < (rl.window_seconds : ℚ))) rl.clients
          | none => setKey key [] rl.clients } := by
  unfold RateLimiter.touch RateLimiter.cleanup_old_requests
  cases h : lookupKey key rl.clients with
  | none => simp [h]
  | some log => simp [h, lookupKey_setKey_self]

theorem touch_max_requests (rl : RateLimiter) (key : String) (now : ℚ) :
    (rl.touch key now).max_requests = rl.max_requests := by
  rw [touch_def]

theorem touch_window_seconds (rl : RateLimiter) (key : String) (now : ℚ) :
    (rl.touch key now).window_seconds = rl.window_seconds := by
  rw [touch_def]

theorem lookupKey_touch_self (rl : RateLimiter) (key : String) (now : ℚ) :
    lookupKey key (rl.touch key now).clients =
      some (((lookupKey key rl.clients).getD []).filter
        (fun ts => now - ts < (rl.window_seconds : ℚ))) := by
  rw [touch_def]
  cases h : lookupKey key rl.clients with
  | none => simp [h, lookupKey_setKey_self]
  | some log => simp [h, lookupKey_setKey_self]

theorem lookupKey_touch_other (rl : RateLimiter) {key k : String} (h : k ≠ key) (now : ℚ) :
    lookupKey k (rl.touch key now).clients = lookupKey k rl.clients := by
  rw [touch_def]
  cases hl : lookupKey key rl.clients with
  | none => simp [hl, lookupKey_setKey_other h]
  | some log => simp [hl, lookupKey_setKey_other h]

theorem is_rate_limited_raise (rl : RateLimiter) (key : String) (now : ℚ)
    (hlog : lookupKey key (rl.touch key now).clients = some [])
    (hcount : rl.max_requests ≤ 0) :
    rl.is_rate_limited key now = (none, rl.touch key now) := by
  unfold RateLimiter.is_rate_limited
  simp only [hlog, Option.getD_some, List.length_nil, Nat.cast_zero, touch_max_requests]
  rw [if_pos hcount]

theorem is_rate_limited_reject (rl : RateLimiter) (key : String) (now : ℚ)
    (x : ℚ) (xs : List ℚ)
    (hlog : lookupKey key (rl.touch key now).clients = some (x :: xs))
    (hcount : rl.max_requests ≤ ((x :: xs).length : ℤ)) :
    rl.is_rate_limited key now =
      (some ⟨true, 0, RateLimiter.rejectReset (xs.foldl min x) rl.window_seconds now⟩,
       rl.touch key now) := by
  unfold RateLimiter.is_rate_limited
  simp only [hlog, Option.getD_some, touch_max_requests, touch_window_seconds]
  rw [if_pos (by exact_mod_cast hcount)]

theorem is_rate_limited_accept (rl : RateLimiter) (key : String) (now : ℚ) (log : List ℚ)
    (hlog : lookupKey key (rl.touch key now).clients = some log)
    (hcount : (log.length : ℤ) < rl.max_requests) :
    rl.is_rate_limited key now =
      (some ⟨false, rl.max_requests - ((log.length : ℤ) + 1), rl.window_seconds⟩,
       { rl.touch key now with
          clients := setKey key (log ++ [now]) (rl.touch key now).clients }) := by
  unfold RateLimiter.is_rate_limited
  simp only [hlog, Option.getD_some, touch_max_requests, touch_window_seconds]
  rw [if_neg (by exact_mod_cast not_le.mpr hcount)]
  simp only [List.length_append, List.length_singleton, Prod.mk.injEq, Option.some.injEq,
    Decision.mk.injEq, and_true, true_and]
  omega

theorem is_rate_limited_state (rl : RateLimiter) (key : String) (now : ℚ) :
    (rl.is_rate_limited key now).2 = rl.touch key now ∨
    (rl.is_rate_limited key now).2 =
      { rl.touch key now with
          clients := setKey key (((lookupKey key (rl.touch key now).clients).getD []) ++ [now])
            (rl.touch key now).clients } := by
  obtain ⟨L, hlog⟩ : ∃ L, lookupKey key (rl.touch key now).clients = some L :=
    ⟨_, lookupKey_touch_self rl key now⟩
  by_cases hc : rl.max_requests ≤ (L.length : ℤ)
  · cases L with
    | nil =>
      left
      rw [is_rate_limited_raise rl key now hlog (by simpa using hc)]
    | cons x xs =>
      left
      rw [is_rate_limited_reject rl key now x xs hlog hc]
  · right
    rw [is_rate_limited_accept rl key now L hlog (not_le.mp hc)]
    simp [hlog]

theorem is_rate_limited_max_requests (rl : RateLimiter) (key : String) (now : ℚ) :
    (rl.is_rate_limited key now).2.max_requests = rl.max_requests := by
  rcases is_rate_limited_state rl key now with h | h <;> rw [h] <;>
    simp [touch_max_requests]

theorem is_rate_limited_frame (rl : RateLimiter) {key k : String} (h : k ≠ key) (now : ℚ) :
    lookupKey k (rl.is_rate_limited key now).2.clients = lookupKey k rl.clients := by
  rcases is_rate_limited_state rl key now with hs | hs <;> rw [hs]
  · exact lookupKey_touch_other rl h now
  · show lookupKey k (setKey key _ (rl.touch key now).clients) = _
    rw [lookupKey_setKey_other h, lookupKey_touch_other rl h now]

theorem reject_inversion (rl : RateLimiter) (key : String) (now : ℚ) (d : Decision)
    (rl' : RateLimiter) (h : rl.is_rate_limited key now = (some d, rl'))
    (hlim : d.is_limited = true) :
    ∃ x xs, lookupKey key (rl.touch key now).clients = some (x :: xs) ∧
      rl.max_requests ≤ ((x :: xs).length : ℤ) ∧
      d = ⟨true, 0, RateLimiter.rejectReset (xs.foldl min x) rl.window_seconds now⟩ ∧
      rl' = rl.touch key now := by
  obtain ⟨L, hlog⟩ : ∃ L, lookupKey key (rl.touch key now).clients = some L :=
    ⟨_, lookupKey_touch_self rl key now⟩
  by_cases hc : rl.max_requests ≤ (L.length : ℤ)
  · cases L with
    | nil =>
      rw [is_rate_limited_raise rl key now hlog (by simpa using hc)] at h
      exact absurd h (by simp)
    | cons x xs =>
      rw [is_rate_limited_reject rl key now x xs hlog hc] at h
      simp only [Prod.mk.injEq, Option.some.injEq] at h
      obtain ⟨hd, hs⟩ := h
      exact ⟨x, xs, hlog, hc, hd.symm, hs.symm⟩
  · rw [is_rate_limited_accept rl key now L hlog (not_le.mp hc)] at h
    simp only [Prod.mk.injEq, Option.some.injEq] at h
    obtain ⟨hd, _⟩ := h
    rw [← hd] at hlim
    simp at hlim

/-! ## Claims -/

/-- Claim C1: for a validly constructed limiter, whenever the post-eviction log of a
key holds at least `max_requests` timestamps, `is_rate_limited` rejects with
`allowed = false`, `remaining = 0`,
`reset_seconds = max 0 ⌊oldest + window_seconds - now⌋` where `oldest` is the
minimum of the surviving log, and it leaves the state at the post-eviction
state (`now` is not appended). -/
theorem C1_reject_decision (rl : RateLimiter) (key : String) (now : ℚ)
    (hmax : 0 < rl.max_requests) (hwin : 0 < rl.window_seconds)
    (hcount : rl.max_requests ≤
      (((lookupKey key (rl.touch key now).clients).getD []).length : ℤ)) :
    ∃ (oldest : ℚ) (d : Decision),
      oldest ∈ (lookupKey key (rl.touch key now).clients).getD [] ∧
      (∀ t ∈ (lookupKey key (rl.touch key now).clients).getD [], oldest ≤ t) ∧
      rl.is_rate_limited key now = (some d, rl.touch key now) ∧
      d.allowed = false ∧ d.remaining = 0 ∧
      d.reset_seconds = max 0 ⌊oldest + (rl.window_seconds : ℚ) - now⌋ := by
  obtain ⟨L, hlog⟩ : ∃ L, lookupKey key (rl.touch key now).clients = some L :=
    ⟨_, lookupKey_touch_self rl key now⟩
  rw [hlog] at hcount ⊢
  simp only [Option.getD_some] at hcount ⊢
  cases L with
  | nil =>
    simp only [List.length_nil, Nat.cast_zero] at hcount
    omega
  | cons x xs =>
    refine ⟨xs.foldl min x, ⟨true, 0, RateLimiter.rejectReset (xs.foldl min x)
        rl.window_seconds now⟩, foldl_min_mem xs x, foldl_min_le xs x,
      is_rate_limited_reject rl key now x xs hlog hcount, rfl, rfl, ?_⟩
    show RateLimiter.rejectReset (xs.foldl min x) rl.window_seconds now = _
    unfold RateLimiter.rejectReset
    rw [max_zero_pyInt]

/-- Witness for C1: a limiter with capacity 2 whose key `"k"` already holds two
fresh timestamps rejects a call at time 10. -/
theorem C1_reject_decision_witness :
    ∃ (oldest : ℚ) (d : Decision),
      oldest ∈ (lookupKey "k" ((RateLimiter.mk 2 60 [("k", [3, 5])]).touch "k" 10).clients).getD
        [] ∧
      (∀ t ∈ (lookupKey "k" ((RateLimiter.mk 2 60 [("k", [3, 5])]).touch "k" 10).clients).getD [],
        oldest ≤ t) ∧
      (RateLimiter.mk 2 60 [("k", [3, 5])]).is_rate_limited "k" 10 =
        (some d, (RateLimiter.mk 2 60 [("k", [3, 5])]).touch "k" 10) ∧
      d.allowed = false ∧ d.remaining = 0 ∧
      d.reset_seconds = max 0 ⌊oldest + ((RateLimiter.mk 2 60 [("k", [3, 5])]).window_seconds :
        ℚ) - 10⌋ :=
  C1_reject_decision ⟨2, 60, [("k", [3, 5])]⟩ "k" 10 (by decide) (by decide)
    (by with_unfolding_all decide)

/-- Claim C2: for a validly constructed limiter, whenever the post-eviction log of a
key holds fewer than `max_requests` timestamps, `is_rate_limited` appends `now`
to the stored log and accepts with `remaining` equal to `max_requests` minus
the post-append log length and `reset_seconds` equal to the full
`window_seconds`. -/
theorem C2_accept_decision (rl : RateLimiter) (key : String) (now : ℚ)
    (hmax : 0 < rl.max_requests) (hwin : 0 < rl.window_seconds)
    (hcount : ((((lookupKey key (rl.touch key now).clients).getD []).length : ℤ) <
      rl.max_requests)) :
    ∃ d : Decision,
      rl.is_rate_limited key now =
        (some d, { rl.touch key now with
          clients := setKey key (((lookupKey key (rl.touch key now).clients).getD []) ++ [now])
            (rl.touch key now).clients }) ∧
      d.allowed = true ∧
      d.remaining = rl.max_requests -
        (((((lookupKey key (rl.touch key now).clients).getD []) ++ [now]).length : ℤ)) ∧
      d.reset_seconds = rl.window_seconds ∧
      lookupKey key (rl.is_rate_limited key now).2.clients =
        some (((lookupKey key (rl.touch key now).clients).getD []) ++ [now]) := by
  obtain ⟨L, hlog⟩ : ∃ L, lookupKey key (rl.touch key now).clients = some L :=
    ⟨_, lookupKey_touch_self rl key now⟩
  rw [hlog] at hcount ⊢
  simp only [Option.getD_some] at hcount ⊢
  have heq := is_rate_limited_accept rl key now L hlog hcount
  refine ⟨⟨false, rl.max_requests - ((L.length : ℤ) + 1), rl.window_seconds⟩, heq, rfl, ?_, rfl,
    ?_⟩
  · show rl.max_requests - ((L.length : ℤ) + 1) = rl.max_requests - ((L ++ [now]).length : ℤ)
    rw [List.length_append, List.length_singleton]
    push_cast
    ring
  · rw [heq]
    show lookupKey key (setKey key (L ++ [now]) (rl.touch key now).clients) = _
    rw [lookupKey_setKey_self]

/-- Witness for C2: a limiter with capacity 2 whose key `"k"` holds one fresh
timestamp accepts a call at time 10, appending it and reporting the full
window as the reset value. -/
theorem C2_accept_decision_witness :
    ∃ d : Decision,
      (RateLimiter.mk 2 60 [("k", [3])]).is_rate_limited "k" 10 =
        (some d, { (RateLimiter.mk 2 60 [("k", [3])]).touch "k" 10 with
          clients := setKey "k"
            (((lookupKey "k" ((RateLimiter.mk 2 60 [("k", [3])]).touch "k" 10).clients).getD [])
              ++ [10])
            ((RateLimiter.mk 2 60 [("k", [3])]).touch "k" 10).clients }) ∧
      d.allowed = true ∧
      d.remaining = (RateLimiter.mk 2 60 [("k", [3])]).max_requests -
        ((((lookupKey "k" ((RateLimiter.mk 2 60 [("k", [3])]).touch "k" 10).clients).getD [])
          ++ [10]).length : ℤ) ∧
      d.reset_seconds = (RateLimiter.mk 2 60 [("k", [3])]).window_seconds ∧
      lookupKey "k" (((RateLimiter.mk 2 60 [("k", [3])]).is_rate_limited "k" 10).2).clients =
        some (((lookupKey "k" ((RateLimiter.mk 2 60 [("k", [3])]).touch "k" 10).clients).getD [])
          ++ [10]) :=
  C2_accept_decision ⟨2, 60, [("k", [3])]⟩ "k" 10 (by decide) (by decide)
    (by with_unfolding_all decide)

/-- Claim C3: the eviction pass keeps exactly the timestamps within the window:
the stored log of the accessed key becomes the filter of its old log by
`now - t < window_seconds`, membership in the result is equivalent to old
membership plus freshness, and every surviving timestamp is within
`window_seconds` of `now`. -/
theorem C3_eviction_filter (rl : RateLimiter) (key : String) (now : ℚ) (L : List ℚ)
    (hL : lookupKey key rl.clients = some L) :
    lookupKey key (rl.cleanup_old_requests key now).clients =
      some (L.filter (fun ts => now - ts < (rl.window_seconds : ℚ))) ∧
    (∀ t, t ∈ L.filter (fun ts => now - ts < (rl.window_seconds : ℚ)) ↔
      t ∈ L ∧ now - t < (rl.window_seconds : ℚ)) ∧
    (∀ t ∈ L.filter (fun ts => now - ts < (rl.window_seconds : ℚ)),
      now - t < (rl.window_seconds : ℚ)) ∧
    lookupKey key (rl.touch key now).clients =
      some (L.filter (fun ts => now - ts < (rl.window_seconds : ℚ))) := by
  refine ⟨?_, ?_, ?_, ?_⟩
  · unfold RateLimiter.cleanup_old_requests
    rw [hL]
    exact lookupKey_setKey_self key _ rl.clients
  · intro t
    simp [List.mem_filter]
  · intro t ht
    exact of_decide_eq_true (List.mem_filter.mp ht).2
  · rw [lookupKey_touch_self, hL]
    simp

/-- Witness for C3: evicting key `"k"` at time 61 with a 60-second window deletes
the timestamp 1 and keeps the timestamp 5. -/
theorem C3_eviction_filter_witness :
    lookupKey "k" ((RateLimiter.mk 3 60 [("k", [1, 5])]).cleanup_old_requests "k" 61).clients =
      some ([1, 5].filter (fun ts => (61 : ℚ) - ts <
        ((RateLimiter.mk 3 60 [("k", [1, 5])]).window_seconds : ℚ))) ∧
    (∀ t, t ∈ [1, 5].filter (fun ts => (61 : ℚ) - ts <
        ((RateLimiter.mk 3 60 [("k", [1, 5])]).window_seconds : ℚ)) ↔
      t ∈ ([1, 5] : List ℚ) ∧ (61 : ℚ) - t <
        ((RateLimiter.mk 3 60 [("k", [1, 5])]).window_seconds : ℚ)) ∧
    (∀ t ∈ [1, 5].filter (fun ts => (61 : ℚ) - ts <
        ((RateLimiter.mk 3 60 [("k", [1, 5])]).window_seconds : ℚ)),
      (61 : ℚ) - t < ((RateLimiter.mk 3 60 [("k", [1, 5])]).window_seconds : ℚ)) ∧
    lookupKey "k" ((RateLimiter.mk 3 60 [("k", [1, 5])]).touch "k" 61).clients =
      some ([1, 5].filter (fun ts => (61 : ℚ) - ts <
        ((RateLimiter.mk 3 60 [("k", [1, 5])]).window_seconds : ℚ))) :=
  C3_eviction_filter ⟨3, 60, [("k", [1, 5])]⟩ "k" 61 [1, 5] (by with_unfolding_all decide)

/-- Claim C6: on a validly constructed limiter, `is_rate_limited` never raises: for
every key (the empty string included) and every time it returns a decision
(the Python `min` is only reached on a non-empty log). -/
theorem C6_classify_total (rl : RateLimiter) (key : String) (now : ℚ)
    (hmax : 0 < rl.max_requests) (hwin : 0 < rl.window_seconds) :
    ∃ (d : Decision) (rl' : RateLimiter), rl.is_rate_limited key now = (some d, rl') := by
  obtain ⟨L, hlog⟩ : ∃ L, lookupKey key (rl.touch key now).clients = some L :=
    ⟨_, lookupKey_touch_self rl key now⟩
  by_cases hc : rl.max_requests ≤ (L.length : ℤ)
  · cases L with
    | nil =>
      simp only [List.length_nil, Nat.cast_zero] at hc
      omega
    | cons x xs => exact ⟨_, _, is_rate_limited_reject rl key now x xs hlog hc⟩
  · exact ⟨_, _, is_rate_limited_accept rl key now L hlog (not_le.mp hc)⟩

/-- Witness for C6: a fresh limiter answers a call with the degenerate empty-string
client key. -/
theorem C6_classify_total_witness :
    ∃ (d : Decision) (rl' : RateLimiter),
      (RateLimiter.mk 100 60 []).is_rate_limited "" 0 = (some d, rl') :=
  C6_classify_total ⟨100, 60, []⟩ "" 0 (by decide) (by decide)

theorem touch_bounded (rl : RateLimiter) (key : String) (now : ℚ)
    (hmax : 0 ≤ rl.max_requests) (hInv : LogsBounded rl) :
    LogsBounded (rl.touch key now) := by
  intro k log h
  rw [touch_max_requests]
  by_cases hk : k = key
  · subst hk
    rw [lookupKey_touch_self] at h
    obtain rfl := (Option.some.injEq _ _).mp h
    cases horig : lookupKey k rl.clients with
    | none =>
      simp only [horig, Option.getD_none, List.filter_nil, List.length_nil, Nat.cast_zero]
      exact hmax
    | some L =>
      simp only [Option.getD_some]
      have hle : (L.filter (fun ts => now - ts < (rl.window_seconds : ℚ))).length ≤ L.length :=
        List.length_filter_le _ L
      have hL := hInv k L horig
      omega
  · rw [lookupKey_touch_other rl hk now] at h
    exact hInv k log h

/-- Claim C4: with a positive capacity the bounded-log invariant holds in the empty
initial state and is preserved by every call; and whenever the post-eviction
log of a key is already at capacity, the call rejects with `remaining = 0`,
a nonnegative reset, and appends nothing. -/
theorem C4_log_bound_invariant (m w : ℤ) (rl : RateLimiter) (key : String) (now : ℚ)
    (hmax : 0 < rl.max_requests) (hInv : LogsBounded rl) :
    LogsBounded (RateLimiter.new m w) ∧
    LogsBounded (rl.is_rate_limited key now).2 ∧
    (rl.max_requests ≤ (((lookupKey key (rl.touch key now).clients).getD []).length : ℤ) →
      ∃ r : ℤ, 0 ≤ r ∧ (rl.is_rate_limited key now).1 = some ⟨true, 0, r⟩ ∧
        (rl.is_rate_limited key now).2 = rl.touch key now) := by
  obtain ⟨L, hlog⟩ : ∃ L, lookupKey key (rl.touch key now).clients = some L :=
    ⟨_, lookupKey_touch_self rl key now⟩
  have htb := touch_bounded rl key now hmax.le hInv
  refine ⟨?_, ?_, ?_⟩
  · intro k log h
    exact absurd h (by simp [RateLimiter.new, lookupKey])
  · by_cases hc : rl.max_requests ≤ (L.length : ℤ)
    · cases L with
      | nil =>
        rw [is_rate_limited_raise rl key now hlog (by simpa using hc)]
        exact htb
      | cons x xs =>
        rw [is_rate_limited_reject rl key now x xs hlog hc]
        exact htb
    · rw [is_rate_limited_accept rl key now L hlog (not_le.mp hc)]
      intro k log h
      have h' : lookupKey k (setKey key (L ++ [now]) (rl.touch key now).clients) = some log := h
      show (log.length : ℤ) ≤ (rl.touch key now).max_requests
      rw [touch_max_requests]
      by_cases hk : k = key
      · subst hk
        rw [lookupKey_setKey_self] at h'
        obtain rfl := (Option.some.injEq _ _).mp h'
        have hlen := not_le.mp hc
        simp only [List.length_append, List.length_singleton]
        omega
      · rw [lookupKey_setKey_other hk] at h'
        have hb := htb k log h'
        rwa [touch_max_requests] at hb
  · intro hsat
    rw [hlog] at hsat
    simp only [Option.getD_some] at hsat
    cases L with
    | nil =>
      simp only [List.length_nil, Nat.cast_zero] at hsat
      omega
    | cons x xs =>
      refine ⟨RateLimiter.rejectReset (xs.foldl min x) rl.window_seconds now,
        le_max_left 0 _, ?_, ?_⟩
      · rw [is_rate_limited_reject rl key now x xs hlog hsat]
      · rw [is_rate_limited_reject rl key now x xs hlog hsat]

/-- Witness for C4: a limiter at capacity 1 holding one fresh timestamp preserves
the invariant and rejects without appending. -/
theorem C4_log_bound_invariant_witness :
    LogsBounded (RateLimiter.new 100 60) ∧
    LogsBounded ((⟨1, 60, [("k", [3])]⟩ : RateLimiter).is_rate_limited "k" 10).2 ∧
    (∃ r : ℤ, 0 ≤ r ∧
      ((⟨1, 60, [("k", [3])]⟩ : RateLimiter).is_rate_limited "k" 10).1 = some ⟨true, 0, r⟩ ∧
      ((⟨1, 60, [("k", [3])]⟩ : RateLimiter).is_rate_limited "k" 10).2 =
        (⟨1, 60, [("k", [3])]⟩ : RateLimiter).touch "k" 10) := by
  have hInv : LogsBounded ⟨1, 60, [("k", [3])]⟩ := by
    intro k log h
    simp only [lookupKey] at h
    split at h
    · obtain rfl := (Option.some.injEq _ _).mp h
      decide
    · simp at h
  have h := C4_log_bound_invariant 100 60 ⟨1, 60, [("k", [3])]⟩ "k" 10 (by decide) hInv
  exact ⟨h.1, h.2.1, h.2.2 (by with_unfolding_all decide)⟩

/-- Claim C7: across two successive rejections of the same key with no accepted call
in between and no entry yet expiring, the returned reset value does not
increase as `now` advances, and the reject-branch reset computation yields
exactly 0 at the boundary `oldest + window`. -/
theorem C7_reset_monotone (rl rl1 rl2 : RateLimiter) (key : String) (now1 now2 : ℚ)
    (r1 r2 : ℤ)
    (h1 : rl.is_rate_limited key now1 = (some ⟨true, 0, r1⟩, rl1))
    (h2 : rl1.is_rate_limited key now2 = (some ⟨true, 0, r2⟩, rl2))
    (h12 : now1 ≤ now2)
    (hb : now2 < listMin ((lookupKey key rl1.clients).getD []) + (rl1.window_seconds : ℚ)) :
    r2 ≤ r1 ∧
    (∀ (oldest : ℚ) (w : ℤ), RateLimiter.rejectReset oldest w (oldest + (w : ℚ)) = 0) ∧
    (∀ (oldest : ℚ) (w : ℤ) (n1 n2 : ℚ), n1 ≤ n2 →
      RateLimiter.rejectReset oldest w n2 ≤ RateLimiter.rejectReset oldest w n1) := by
  have mono : ∀ (oldest : ℚ) (w : ℤ) (n1 n2 : ℚ), n1 ≤ n2 →
      RateLimiter.rejectReset oldest w n2 ≤ RateLimiter.rejectReset oldest w n1 := by
    intro o w n1 n2 h
    unfold RateLimiter.rejectReset
    exact max_le_max le_rfl (pyInt_mono (by linarith))
  have boundary : ∀ (oldest : ℚ) (w : ℤ),
      RateLimiter.rejectReset oldest w (oldest + (w : ℚ)) = 0 := by
    intro o w
    unfold RateLimiter.rejectReset
    have h0 : o + (w : ℚ) - (o + (w : ℚ)) = 0 := by ring
    rw [h0, pyInt_eq]
    simp
  refine ⟨?_, boundary, mono⟩
  obtain ⟨x, xs, hlog1, hc1, hd1, hs1⟩ := reject_inversion rl key now1 _ _ h1 rfl
  rw [Decision.mk.injEq] at hd1
  obtain ⟨-, -, hr1⟩ := hd1
  subst hs1
  rw [hlog1] at hb
  simp only [Option.getD_some] at hb
  rw [touch_window_seconds] at hb
  have hminxs : listMin (x :: xs) = xs.foldl min x := rfl
  rw [hminxs] at hb
  have hkeep : ∀ t ∈ x :: xs,
      decide (now2 - t < (((rl.touch key now1).window_seconds : ℤ) : ℚ)) = true := by
    intro t ht
    rw [touch_window_seconds]
    apply decide_eq_true
    have h5 := foldl_min_le xs x t ht
    linarith
  have hlog2 : lookupKey key ((rl.touch key now1).touch key now2).clients = some (x :: xs) := by
    rw [lookupKey_touch_self, hlog1]
    simp only [Option.getD_some]
    rw [List.filter_eq_self.mpr hkeep]
  have hc2 : (rl.touch key now1).max_requests ≤ ((x :: xs).length : ℤ) := by
    rw [touch_max_requests]; exact hc1
  have heq2 := is_rate_limited_reject (rl.touch key now1) key now2 x xs hlog2 hc2
  rw [heq2] at h2
  simp only [Prod.mk.injEq, Option.some.injEq, Decision.mk.injEq] at h2
  obtain ⟨⟨-, -, hr2⟩, -⟩ := h2
  rw [← hr2, hr1, touch_window_seconds]
  exact mono _ _ _ _ h12

/-- Witness for C7: with two timestamps at 0 under a 60-second window, rejections
at times 10 and 30 return resets 50 and then 30. -/
theorem C7_reset_monotone_witness :
    ((30 : ℤ) ≤ 50) ∧
    RateLimiter.rejectReset 0 60 ((0 : ℚ) + ((60 : ℤ) : ℚ)) = 0 ∧
    RateLimiter.rejectReset 0 60 30 ≤ RateLimiter.rejectReset 0 60 10 := by
  have h := C7_reset_monotone ⟨2, 60, [("k", [0, 0])]⟩ ⟨2, 60, [("k", [0, 0])]⟩
    ⟨2, 60, [("k", [0, 0])]⟩ "k" 10 30 50 30 (by with_unfolding_all decide)
    (by with_unfolding_all decide) (by with_unfolding_all decide)
    (by with_unfolding_all decide)
  exact ⟨h.1, h.2.1 0 60, h.2.2 0 60 10 30 (by with_unfolding_all decide)⟩

/-- Claim C8: any sequence of calls for key `a` leaves the stored log of a distinct
key `b` unchanged, and the capacity unchanged, so `b`'s quota is untouched. -/
theorem C8_key_isolation (rl : RateLimiter) {a b : String} (hab : a ≠ b) (ts : List ℚ) :
    lookupKey b (runCallsOn rl a ts).clients = lookupKey b rl.clients ∧
    (runCallsOn rl a ts).max_requests = rl.max_requests := by
  induction ts generalizing rl with
  | nil => exact ⟨rfl, rfl⟩
  | cons t ts ih =>
    obtain ⟨ih1, ih2⟩ := ih (rl.is_rate_limited a t).2
    refine ⟨?_, ?_⟩
    · show lookupKey b (runCallsOn (rl.is_rate_limited a t).2 a ts).clients = _
      rw [ih1, is_rate_limited_frame rl (Ne.symm hab) t]
    · show (runCallsOn (rl.is_rate_limited a t).2 a ts).max_requests = _
      rw [ih2, is_rate_limited_max_requests]

/-- Witness for C8: three calls for key `"a"`, enough to saturate capacity 1,
leave key `"b"`'s stored log and the capacity untouched. -/
theorem C8_key_isolation_witness :
    lookupKey "b" (runCallsOn ⟨1, 60, [("b", [2])]⟩ "a" [0, 1, 2]).clients =
      lookupKey "b" ((⟨1, 60, [("b", [2])]⟩ : RateLimiter)).clients ∧
    (runCallsOn ⟨1, 60, [("b", [2])]⟩ "a" [0, 1, 2]).max_requests =
      ((⟨1, 60, [("b", [2])]⟩ : RateLimiter)).max_requests :=
  C8_key_isolation ⟨1, 60, [("b", [2])]⟩ (by decide) [0, 1, 2]

/-- Claim C10: a rejected call is not state-neutral: after any call the key has an
entry, a never-seen key gets an empty log created by the eviction-and-init
step, and on rejection the final state is exactly the post-eviction state —
only the append of `now` is withheld. -/
theorem C10_reject_persists (rl : RateLimiter) (key : String) (now : ℚ) :
    (lookupKey key ((rl.is_rate_limited key now).2).clients).isSome = true ∧
    (lookupKey key rl.clients = none → lookupKey key (rl.touch key now).clients = some []) ∧
    (∀ (d : Decision) (rl' : RateLimiter), rl.is_rate_limited key now = (some d, rl') →
      d.is_limited = true → rl' = rl.touch key now) := by
  refine ⟨?_, ?_, ?_⟩
  · rcases is_rate_limited_state rl key now with h | h <;> rw [h]
    · rw [lookupKey_touch_self]; rfl
    · have hq : lookupKey key
          (setKey key (((lookupKey key (rl.touch key now).clients).getD []) ++ [now])
            (rl.touch key now).clients) =
          some (((lookupKey key (rl.touch key now).clients).getD []) ++ [now]) :=
        lookupKey_setKey_self key _ _
      show (lookupKey key
        (setKey key (((lookupKey key (rl.touch key now).clients).getD []) ++ [now])
          (rl.touch key now).clients)).isSome = true
      rw [hq]
      rfl
  · intro h
    rw [lookupKey_touch_self, h]
    simp
  · intro d rl' h hlim
    obtain ⟨x, xs, -, -, -, hs⟩ := reject_inversion rl key now d rl' h hlim
    exact hs

/-- Witness for C10: a rejection at capacity 1 leaves the state at the
post-eviction state, and a fresh key gets an empty entry created. -/
theorem C10_reject_persists_witness :
    (⟨1, 60, [("k", [3])]⟩ : RateLimiter) = (⟨1, 60, [("k", [3])]⟩ : RateLimiter).touch "k" 10 ∧
    lookupKey "k" ((⟨1, 60, []⟩ : RateLimiter).touch "k" 5).clients = some [] :=
  ⟨(C10_reject_persists ⟨1, 60, [("k", [3])]⟩ "k" 10).2.2 ⟨true, 0, 53⟩ ⟨1, 60, [("k", [3])]⟩
      (by with_unfolding_all decide) rfl,
   (C10_reject_persists ⟨1, 60, []⟩ "k" 5).2.1 rfl⟩

/-- Counterexample for C5: the source constructor does not fail on a non-positive
`max_requests`: `new 0 60` produces a limiter storing the invalid
configuration verbatim, and the invalid value instead surfaces later as a
raise inside the classify call (Python `min([])`). -/
theorem C5_counterexample :
    RateLimiter.new 0 60 = { max_requests := 0, window_seconds := 60, clients := [] } ∧
    ((RateLimiter.new 0 60).is_rate_limited "k" 5).1 = none :=
  ⟨rfl, by with_unfolding_all decide⟩

/-- Amendment of C5: the constructor performs no validation: for every pair of
arguments, non-positive included, it returns a limiter storing them verbatim;
with a non-positive `max_requests` the first classify call on a fresh key
then raises instead. -/
theorem C5_no_validation (m w : ℤ) (key : String) (now : ℚ) (hm : m ≤ 0) :
    RateLimiter.new m w = ⟨m, w, []⟩ ∧
    ((RateLimiter.new m w).is_rate_limited key now).1 = none := by
  refine ⟨rfl, ?_⟩
  have hlog : lookupKey key ((RateLimiter.new m w).touch key now).clients = some [] := by
    rw [lookupKey_touch_self]
    rfl
  rw [is_rate_limited_raise (RateLimiter.new m w) key now hlog hm]

/-- Witness for the amendment of C5: constructing with `max_requests = 0` succeeds and the
first classify call raises. -/
theorem C5_no_validation_witness :
    RateLimiter.new 0 60 = (⟨0, 60, []⟩ : RateLimiter) ∧
    ((RateLimiter.new 0 60).is_rate_limited "q" 5).1 = none :=
  C5_no_validation 0 60 "q" 5 (by decide)

end TodoApp
